import Mathlib

/-!
Verification of the inflammation-analysis core (`inflammation/models.py`,
`inflammation/compute_data.py`).

The numeric values handled by `patient_normalise` are IEEE floats that may be
NaN or infinite; we embed them as the type `FVal` below, with rationals for the
finite values (all the arithmetic the code performs on them is exact).  The
analysis pipeline (`daily_mean`, `analyse_data`, ...) is embedded over plain
rational tables, with the final `np.std` producing real numbers via `Real.sqrt`.
-/

/-- An IEEE-754 double as the source manipulates it: NaN, +inf, -inf, or a
finite value (embedded as an exact rational, since the code only performs
single divisions on them). -/
inductive FVal where
  | nan : FVal
  | pinf : FVal
  | ninf : FVal
  | num : ℚ → FVal
deriving DecidableEq, Repr

/-- `v` is NaN (models `np.isnan`). -/
def FVal.isnan : FVal → Bool
  | .nan => true
  | _ => false

/-- IEEE comparison `x <= y` restricted to what the source needs: any
comparison with NaN is false (as in numpy), otherwise the usual order with
-inf below all finite values and +inf above. -/
def fle : FVal → FVal → Bool
  | .nan, _ => false
  | _, .nan => false
  | .ninf, _ => true
  | _, .pinf => true
  | .pinf, _ => false
  | .num _, .ninf => false
  | .num a, .num b => a ≤ b

/-- IEEE comparison `x < 0` (models numpy's elementwise `data < 0`):
false for NaN, true for -inf and negative finite values. -/
def FVal.isNeg : FVal → Bool
  | .nan => false
  | .pinf => false
  | .ninf => true
  | .num q => decide (q < 0)

/-- IEEE division, covering the value domain above.  `0/0`, `inf/inf` and any
division involving NaN give NaN; a nonzero finite value divided by zero gives a
signed infinity; a finite value divided by an infinity gives 0. -/
def fdiv : FVal → FVal → FVal
  | .nan, _ => .nan
  | _, .nan => .nan
  | .pinf, .pinf => .nan
  | .pinf, .ninf => .nan
  | .ninf, .pinf => .nan
  | .ninf, .ninf => .nan
  | .pinf, .num q => if q < 0 then .ninf else .pinf
  | .ninf, .num q => if q < 0 then .pinf else .ninf
  | .num _, .pinf => .num 0
  | .num _, .ninf => .num 0
  | .num a, .num b =>
      if b = 0 then (if a = 0 then .nan else if 0 < a then .pinf else .ninf)
      else .num (a / b)

/-- The binary maximum used by `np.fmax.reduce` on non-NaN values. -/
def fmax2 (x y : FVal) : FVal := if fle x y then y else x

/-- Maximum of a list of non-NaN values, `none` on the empty list
(structural form of `np.fmax.reduce` over the non-NaN entries). -/
def maxNN : List FVal → Option FVal
  | [] => none
  | x :: xs =>
      match maxNN xs with
      | none => some x
      | some m => some (fmax2 x m)

/-- `np.nanmax` over one row: the maximum ignoring NaN entries; NaN when the
row is non-empty but all-NaN; `none` models the `ValueError` numpy raises for a
zero-size reduction (empty row). -/
def nanmaxList (xs : List FVal) : Option FVal :=
  if xs.isEmpty then none
  else
    match maxNN (xs.filter (fun v => !v.isnan)) with
    | none => some .nan
    | some m => some m

/-- `np.nanmax(data, axis=1)`: one maximum per row; fails (numpy `ValueError`)
as soon as one row is a zero-size reduction. -/
def rowMaxes : List (List FVal) → Option (List FVal)
  | [] => some []
  | r :: rs =>
      match nanmaxList r, rowMaxes rs with
      | some m, some ms => some (m :: ms)
      | _, _ => none

/-- One element of the division-then-sanitise step: divide by the row's
maximum, then replace NaN by 0 (the `normalised[np.isnan(normalised)] = 0`
line). -/
def sanitiseDiv (m x : FVal) : FVal :=
  let d := fdiv x m
  if d.isnan then .num 0 else d

/-- `data / max_data[:, np.newaxis]` followed by the NaN replacement. -/
def normaliseRows (rows : List (List FVal)) (ms : List FVal) : List (List FVal) :=
  List.zipWith (fun r m => r.map (sanitiseDiv m)) rows ms

/-- The Python exceptions the core raises. -/
inductive PyError where
  | typeError : String → PyError
  | valueError : String → PyError
deriving DecidableEq, Repr

deriving instance DecidableEq for Except

/-- The possible arguments of `patient_normalise`: a non-ndarray object, or an
ndarray of dimension 0, 1, 2 or 3 (higher dimensions behave like 3). -/
inductive NpInput where
  | notArray : NpInput
  | array0d : FVal → NpInput
  | array1d : List FVal → NpInput
  | array2d : List (List FVal) → NpInput
  | array3d : List (List (List FVal)) → NpInput

/-- `np.any(data < 0)` for a 2-D array. -/
def hasNegative (rows : List (List FVal)) : Bool :=
  rows.any (fun r => r.any FVal.isNeg)

/-- `patient_normalise` (models.py lines 76-97): check the argument is an
ndarray, check it is 2-dimensional, check it has no negative values, then
divide each row by its NaN-ignoring maximum and replace the NaNs produced by
the division with 0.  The `rowMaxes = none` branch models the `ValueError`
numpy raises from `np.nanmax` on a zero-size (empty-row) reduction. -/
def patient_normalise (input : NpInput) : Except PyError (List (List FVal)) :=
  match input with
  | .notArray => .error (.typeError "Input data should be an ndarray")
  | .array0d _ => .error (.valueError "Inflammation array should be 2-dimensional")
  | .array1d _ => .error (.valueError "Inflammation array should be 2-dimensional")
  | .array3d _ => .error (.valueError "Inflammation array should be 2-dimensional")
  | .array2d rows =>
      if hasNegative rows then
        .error (.valueError "Inflammation values should not be negative")
      else
        match rowMaxes rows with
        | none => .error (.valueError "zero-size array to reduction operation fmax.reduce which has no identity")
        | some ms => .ok (normaliseRows rows ms)

/-- Spec-side predicate: `v` is a negative value (a negative finite number or
-inf); NaN does not count as negative, matching IEEE comparisons. -/
def NegEntry (v : FVal) : Prop :=
  v = .ninf ∨ ∃ q : ℚ, v = .num q ∧ q < 0

/-- Spec-side characterisation of a row's NaN-ignoring maximum: either every
entry is NaN and the maximum is NaN, or the maximum is a non-NaN entry of the
row that dominates every non-NaN entry. -/
def IsNanMax (r : List FVal) (m : FVal) : Prop :=
  (m = .nan ∧ ∀ v ∈ r, v.isnan = true) ∨
    (m ∈ r ∧ m.isnan = false ∧ ∀ v ∈ r, v.isnan = false → fle v m = true)

/-! ## The analysis pipeline (`daily_mean`, `daily_max`, `daily_min`,
`compute_standard_deviation_by_day`, `analyse_data`)

The claims about the pipeline concern ordinary (finite) numeric tables, so
this part of the embedding works over exact rationals. -/

/-- A 2-D numeric table: rows are patients (or, in the stacked matrix of the
pipeline, datasets), columns are days. -/
abbrev QTable := List (List ℚ)

/-- A numpy ufunc reduction along `axis=0`: combine the rows pointwise with
`f`; on `[r]` it is `r`, and each further row is combined pointwise. -/
def colFold (f : ℚ → ℚ → ℚ) : List (List ℚ) → List ℚ
  | [] => []
  | [r] => r
  | r :: rs => List.zipWith f r (colFold f rs)

/-- Column-wise sums (the reduction behind `np.mean(data, axis=0)`). -/
def colSums : List (List ℚ) → List ℚ :=
  colFold (· + ·)

/-- Column-wise maxima (`np.max(data, axis=0)`). -/
def colMaxes : List (List ℚ) → List ℚ :=
  colFold max

/-- Column-wise minima (`np.min(data, axis=0)`). -/
def colMins : List (List ℚ) → List ℚ :=
  colFold min

/-- `daily_mean` (models.py lines 49-55): `np.mean(data, axis=0)`, the
per-day mean across the patient axis. -/
def daily_mean (data : QTable) : List ℚ :=
  (colSums data).map (fun s => s / (data.length : ℚ))

/-- `daily_max` (models.py lines 58-64): `np.max(data, axis=0)`. -/
def daily_max (data : QTable) : List ℚ :=
  colMaxes data

/-- `daily_min` (models.py lines 67-73): `np.min(data, axis=0)`. -/
def daily_min (data : QTable) : List ℚ :=
  colMins data

/-- Population variances per column of the stacked means matrix: `np.std`
first takes the mean per column, then averages the squared deviations,
dividing by the number of rows N (not N-1). -/
def colVariances (m : List (List ℚ)) : List ℚ :=
  let n : ℚ := m.length
  let mus := (colSums m).map (fun s => s / n)
  (colSums (m.map (fun row => List.zipWith (fun x mu => (x - mu) ^ 2) row mus))).map
    (fun s => s / n)

/-- `np.std(matrix, axis=0)`: square roots of the per-column population
variances. -/
noncomputable def stdByDay (m : List (List ℚ)) : List ℝ :=
  (colVariances m).map (fun q : ℚ => Real.sqrt (q : ℝ))

/-- `compute_standard_deviation_by_day` (models.py lines 111-116): map
`daily_mean` over the datasets, stack the resulting series (`np.stack` raises
on an empty collection or on unequal lengths), and take `np.std` across the
dataset axis. -/
noncomputable def compute_standard_deviation_by_day (data : List QTable) :
    Except PyError (List ℝ) :=
  let means := data.map daily_mean
  match means with
  | [] => .error (.valueError "need at least one array to stack")
  | m :: ms =>
      if ms.all (fun r => r.length == m.length) then .ok (stdByDay (m :: ms))
      else .error (.valueError "all input arrays must have the same shape")

/-- A data source as `analyse_data` consumes it: one capability, which either
returns the dataset collection or fails (e.g. "no matching files"). -/
structure DataSource where
  load_inflammation_data : Except PyError (List QTable)

/-- `analyse_data` (models.py lines 100-108): load the data, hand it to
`compute_standard_deviation_by_day`, return the result; any loading error
propagates untouched. -/
noncomputable def analyse_data (ds : DataSource) : Except PyError (List ℝ) :=
  match ds.load_inflammation_data with
  | .error e => .error e
  | .ok data => compute_standard_deviation_by_day data

/-- `CSVDataSource` (compute_data.py lines 10-19): a directory path together
with the result of the `glob` for `inflammation*.csv` files in it, each file
paired with the table `load_csv` parses from it (the filesystem is passed
explicitly, since globbing is the only I/O involved). -/
structure CSVDataSource where
  dir_path : String
  matched_files : List (String × QTable)

/-- `CSVDataSource.load_inflammation_data`: fail with the "no files found"
`ValueError` when the glob matched nothing, else parse every matched file. -/
def CSVDataSource.load_inflammation_data (s : CSVDataSource) :
    Except PyError (List QTable) :=
  if s.matched_files.isEmpty then
    .error (.valueError ("No inflammation data CSV files found in path " ++ s.dir_path))
  else
    .ok (s.matched_files.map Prod.snd)

/-- A `CSVDataSource` viewed through the capability `analyse_data` needs. -/
def CSVDataSource.toDataSource (s : CSVDataSource) : DataSource :=
  ⟨s.load_inflammation_data⟩

/-- Spec-side per-day mean of a table: the sum of column `j` divided by the
number of patients. -/
def specDailyMean (t : QTable) (j : ℕ) : ℚ :=
  (t.map (fun r => r.getD j 0)).sum / (t.length : ℚ)

/-- Spec-side population variance of a list of values: mean squared deviation
from the mean, dividing by N (not N-1). -/
def specPopVariance (vals : List ℚ) : ℚ :=
  ((vals.map (fun v => (v - vals.sum / (vals.length : ℚ)) ^ 2)).sum) / (vals.length : ℚ)

/-! Concrete inputs used by the witnesses. -/

/-- Witness table for C1: one ordinary row, one zero/NaN row, one all-NaN
row. -/
def c1Table : List (List FVal) := [[.num 1, .num 2], [.num 0, .nan], [.nan, .nan]]

/-- Witness table for C4: a zero-max row, an all-NaN row and an ordinary
row. -/
def c4Table : List (List FVal) := [[.num 0, .num 0], [.nan, .nan], [.num 2, .num 1]]

/-- Witness table for C6: every row has a positive finite maximum. -/
def c6Table : List (List FVal) := [[.num 1, .num 2], [.num 3, .nan]]

/-- The mock data source of the spec's pipeline example: two datasets
`[[1,2,3]]` and `[[4,5,6]]`. -/
def mockDataSource : DataSource :=
  ⟨.ok [[[1, 2, 3]], [[4, 5, 6]]]⟩

/-- A single-dataset source for C10. -/
def singleDataSource : DataSource :=
  ⟨.ok [[[1, 2, 3], [7, 9, 11]]]⟩

/-- A CSV data source whose directory holds no matching file. -/
def emptyCSVSource : CSVDataSource :=
  ⟨"data", []⟩

lemma isNeg_eq_false_iff (v : FVal) : v.isNeg = false ↔ ¬ NegEntry v := by
  cases v <;> simp [FVal.isNeg, NegEntry]

lemma hasNegative_eq_false_iff (rows : List (List FVal)) :
    hasNegative rows = false ↔ ∀ r ∈ rows, ∀ v ∈ r, ¬ NegEntry v := by
  simp [hasNegative, List.any_eq_false, isNeg_eq_false_iff]

lemma hasNegative_eq_true_iff (rows : List (List FVal)) :
    hasNegative rows = true ↔ ∃ r ∈ rows, ∃ v ∈ r, NegEntry v := by
  simp [hasNegative, List.any_eq_true]
  constructor
  · rintro ⟨r, hr, v, hv, hneg⟩
    exact ⟨r, hr, v, hv, by have := (isNeg_eq_false_iff v); revert hneg; cases v <;> simp_all [FVal.isNeg, NegEntry]⟩
  · rintro ⟨r, hr, v, hv, hneg⟩
    refine ⟨r, hr, v, hv, ?_⟩
    rcases hneg with h | ⟨q, rfl, hq⟩ <;> simp_all [FVal.isNeg]

lemma fle_refl (a : FVal) (ha : a.isnan = false) : fle a a = true := by
  cases a <;> simp_all [fle, FVal.isnan]

lemma fle_not_nan_left {a b : FVal} (h : fle a b = true) : a.isnan = false := by
  cases a <;> simp_all [fle, FVal.isnan]

lemma fle_not_nan_right {a b : FVal} (h : fle a b = true) : b.isnan = false := by
  cases a <;> cases b <;> simp_all [fle, FVal.isnan]

lemma fle_total (a b : FVal) (ha : a.isnan = false) (hb : b.isnan = false) :
    fle a b = true ∨ fle b a = true := by
  cases a <;> cases b <;> simp_all [fle, FVal.isnan]
  exact le_total _ _

lemma fle_trans {a b c : FVal} (h1 : fle a b = true) (h2 : fle b c = true) :
    fle a c = true := by
  cases a <;> cases b <;> cases c <;> simp_all [fle] <;> try linarith

lemma fle_antisymm {a b : FVal} (h1 : fle a b = true) (h2 : fle b a = true) :
    a = b := by
  cases a <;> cases b <;> simp_all [fle]
  linarith

lemma fmax2_or (x y : FVal) : fmax2 x y = x ∨ fmax2 x y = y := by
  unfold fmax2; split <;> simp

lemma fle_fmax2_left (x y : FVal) (hx : x.isnan = false) (_hy : y.isnan = false) :
    fle x (fmax2 x y) = true := by
  unfold fmax2
  split
  · assumption
  · exact fle_refl x hx

lemma fle_fmax2_right (x y : FVal) (hx : x.isnan = false) (hy : y.isnan = false) :
    fle y (fmax2 x y) = true := by
  unfold fmax2
  split
  · exact fle_refl y hy
  · rcases fle_total x y hx hy with h | h
    · simp_all
    · exact h

lemma maxNN_eq_none (l : List FVal) : maxNN l = none ↔ l = [] := by
  cases l with
  | nil => simp [maxNN]
  | cons x xs =>
      simp only [maxNN]
      cases maxNN xs <;> simp

lemma maxNN_mem {l : List FVal} {m : FVal} (h : maxNN l = some m) : m ∈ l := by
  induction l generalizing m with
  | nil => simp [maxNN] at h
  | cons x xs ih =>
      simp only [maxNN] at h
      cases hxs : maxNN xs with
      | none => rw [hxs] at h; simp at h; simp [h]
      | some m' =>
          rw [hxs] at h; simp at h
          rcases fmax2_or x m' with h2 | h2 <;> rw [← h, h2]
          · simp
          · exact List.mem_cons_of_mem x (ih hxs)

lemma maxNN_isUB {l : List FVal} (hl : ∀ v ∈ l, v.isnan = false) {m : FVal}
    (h : maxNN l = some m) : ∀ v ∈ l, fle v m = true := by
  induction l generalizing m with
  | nil => simp
  | cons x xs ih =>
      have hx : x.isnan = false := hl x (by simp)
      simp only [maxNN] at h
      cases hxs : maxNN xs with
      | none =>
          rw [hxs] at h; simp at h
          rw [maxNN_eq_none] at hxs
          subst hxs h
          intro v hv
          simp at hv
          subst hv
          exact fle_refl v hx
      | some m' =>
          rw [hxs] at h; simp at h
          have hm' : m'.isnan = false := hl m' (List.mem_cons_of_mem x (maxNN_mem hxs))
          intro v hv
          rcases List.mem_cons.mp hv with rfl | hv'
          · rw [← h]; exact fle_fmax2_left v m' hx hm'
          · have h1 : fle v m' = true := ih (fun w hw => hl w (List.mem_cons_of_mem x hw)) hxs v hv'
            rw [← h]
            exact fle_trans h1 (fle_fmax2_right x m' hx hm')

lemma nanmaxList_isSome (r : List FVal) : (nanmaxList r).isSome = true ↔ r ≠ [] := by
  unfold nanmaxList
  split
  · simp_all [List.isEmpty_iff]
  · rename_i h
    cases hm : maxNN (r.filter (fun v => !v.isnan)) <;> simp_all [List.isEmpty_iff]

lemma nanmaxList_spec {r : List FVal} {m : FVal} (h : nanmaxList r = some m) :
    IsNanMax r m := by
  unfold nanmaxList at h
  split at h
  · exact absurd h (by simp)
  · rename_i hne
    cases hm : maxNN (r.filter (fun v => !v.isnan)) with
    | none =>
        rw [hm] at h
        simp at h
        left
        refine ⟨h.symm, fun v hv => ?_⟩
        rw [maxNN_eq_none] at hm
        by_contra hvn
        have : v ∈ r.filter (fun v => !v.isnan) := by
          rw [List.mem_filter]
          exact ⟨hv, by simp [Bool.not_eq_true] at hvn ⊢; simp [hvn]⟩
        rw [hm] at this
        simp at this
    | some m0 =>
        rw [hm] at h
        simp at h
        subst h
        right
        have hmem := maxNN_mem hm
        rw [List.mem_filter] at hmem
        have hnn : ∀ v ∈ r.filter (fun v => !v.isnan), v.isnan = false := by
          intro v hv
          rw [List.mem_filter] at hv
          simpa using hv.2
        refine ⟨hmem.1, by simpa using hmem.2, fun v hv hvn => ?_⟩
        exact maxNN_isUB hnn hm v (List.mem_filter.mpr ⟨hv, by simp [hvn]⟩)

lemma nanmaxList_eq_of {r : List FVal} {b : FVal} (hb : b ∈ r)
    (hbnn : b.isnan = false) (hub : ∀ v ∈ r, v.isnan = false → fle v b = true) :
    nanmaxList r = some b := by
  have hne : r ≠ [] := by rintro rfl; simp at hb
  have hbf : b ∈ r.filter (fun v => !v.isnan) := List.mem_filter.mpr ⟨hb, by simp [hbnn]⟩
  unfold nanmaxList
  split
  · simp_all [List.isEmpty_iff]
  · cases hm : maxNN (r.filter (fun v => !v.isnan)) with
    | none => rw [maxNN_eq_none] at hm; rw [hm] at hbf; simp at hbf
    | some m0 =>
        have hmem := maxNN_mem hm
        rw [List.mem_filter] at hmem
        have hnn : ∀ v ∈ r.filter (fun v => !v.isnan), v.isnan = false := by
          intro v hv
          rw [List.mem_filter] at hv
          simpa using hv.2
        have h1 : fle b m0 = true := maxNN_isUB hnn hm b hbf
        have h2 : fle m0 b = true := hub m0 hmem.1 (by simpa using hmem.2)
        simp [fle_antisymm h2 h1]

lemma map_id_of_mem {α : Type} {l : List α} {f : α → α} (h : ∀ a ∈ l, f a = a) :
    l.map f = l := by
  induction l with
  | nil => rfl
  | cons a as ih => simp [h a (by simp), ih (fun b hb => h b (by simp [hb]))]

/-- Dividing a non-negative row by its NaN-ignoring maximum and zeroing the
NaNs yields only finite values in `[0, 1]`. -/
lemma normRow_bounds {r : List FVal} {m : FVal} (h : nanmaxList r = some m)
    (hneg : ∀ v ∈ r, FVal.isNeg v = false) :
    ∀ v ∈ r.map (sanitiseDiv m), ∃ a : ℚ, v = .num a ∧ 0 ≤ a ∧ a ≤ 1 := by
  intro v hv
  rw [List.mem_map] at hv
  obtain ⟨x, hx, rfl⟩ := hv
  rcases nanmaxList_spec h with ⟨rfl, hall⟩ | ⟨hmem, hmnn, hub⟩
  · have hxn : x.isnan = true := hall x hx
    cases x <;> simp_all [FVal.isnan, sanitiseDiv, fdiv]
  · cases m with
    | nan => simp [FVal.isnan] at hmnn
    | ninf => have := hneg _ hmem; simp [FVal.isNeg] at this
    | pinf =>
        cases x with
        | nan => exact ⟨0, by simp [sanitiseDiv, fdiv, FVal.isnan], le_refl 0, by norm_num⟩
        | ninf => have := hneg _ hx; simp [FVal.isNeg] at this
        | pinf => exact ⟨0, by simp [sanitiseDiv, fdiv, FVal.isnan], le_refl 0, by norm_num⟩
        | num a => exact ⟨0, by simp [sanitiseDiv, fdiv, FVal.isnan], le_refl 0, by norm_num⟩
    | num q =>
        have hq0 : 0 ≤ q := by
          have := hneg _ hmem
          simp [FVal.isNeg] at this
          exact this
        cases x with
        | nan => exact ⟨0, by simp [sanitiseDiv, fdiv, FVal.isnan], le_refl 0, by norm_num⟩
        | ninf => have := hneg _ hx; simp [FVal.isNeg] at this
        | pinf =>
            have := hub _ hx (by simp [FVal.isnan])
            simp [fle] at this
        | num a =>
            have ha0 : 0 ≤ a := by
              have := hneg _ hx
              simp [FVal.isNeg] at this
              exact this
            have haq : a ≤ q := by
              have := hub _ hx (by simp [FVal.isnan])
              simpa [fle] using this
            by_cases hq : q = 0
            · subst hq
              have : a = 0 := le_antisymm haq ha0
              subst this
              exact ⟨0, by simp [sanitiseDiv, fdiv, FVal.isnan], le_refl 0, by norm_num⟩
            · have hqpos : 0 < q := lt_of_le_of_ne hq0 (Ne.symm hq)
              refine ⟨a / q, ?_, div_nonneg ha0 hq0, (div_le_one hqpos).mpr haq⟩
              simp [sanitiseDiv, fdiv, hq, FVal.isnan]

/-- Normalising an all-zero or all-NaN row yields an all-zero row. -/
lemma normRow_degenerate {r : List FVal} {m : FVal} (h : nanmaxList r = some m)
    (hdeg : (∀ v ∈ r, v = .num 0) ∨ (∀ v ∈ r, v.isnan = true)) :
    ∀ v ∈ r.map (sanitiseDiv m), v = .num 0 := by
  intro v hv
  rw [List.mem_map] at hv
  obtain ⟨x, hx, rfl⟩ := hv
  rcases hdeg with hz | hn
  · have hx0 := hz x hx
    subst hx0
    have hm0 : m = .num 0 := by
      rcases nanmaxList_spec h with ⟨rfl, hall⟩ | ⟨hmem, hmnn, hub⟩
      · have := hall _ hx; simp [FVal.isnan] at this
      · exact hz _ hmem
    subst hm0
    simp [sanitiseDiv, fdiv, FVal.isnan]
  · have := hn x hx
    cases x <;> simp_all [FVal.isnan, sanitiseDiv, fdiv]

/-- A row normalised by a positive finite maximum has maximum exactly 1,
contains no negative value, and renormalising it by 1 is the identity. -/
lemma normRow_renorm {r : List FVal} {q : ℚ} (hq : 0 < q)
    (h : nanmaxList r = some (.num q)) (hneg : ∀ v ∈ r, FVal.isNeg v = false) :
    nanmaxList (r.map (sanitiseDiv (.num q))) = some (.num 1) ∧
    (∀ v ∈ r.map (sanitiseDiv (.num q)), FVal.isNeg v = false) ∧
    (r.map (sanitiseDiv (.num q))).map (sanitiseDiv (.num 1)) = r.map (sanitiseDiv (.num q)) := by
  have hb := normRow_bounds h hneg
  have hmemq : FVal.num q ∈ r := by
    rcases nanmaxList_spec h with ⟨h1, _⟩ | ⟨hmem, _, _⟩
    · exact absurd h1 (by simp)
    · exact hmem
  have hone : FVal.num 1 ∈ r.map (sanitiseDiv (.num q)) := by
    rw [List.mem_map]
    refine ⟨.num q, hmemq, ?_⟩
    simp [sanitiseDiv, fdiv, ne_of_gt hq, FVal.isnan, div_self (ne_of_gt hq)]
  refine ⟨?_, ?_, ?_⟩
  · apply nanmaxList_eq_of hone (by simp [FVal.isnan])
    intro v hv _
    obtain ⟨a, rfl, ha0, ha1⟩ := hb v hv
    simpa [fle] using ha1
  · intro v hv
    obtain ⟨a, rfl, ha0, _⟩ := hb v hv
    simp [FVal.isNeg]
    exact ha0
  · apply map_id_of_mem
    intro v hv
    obtain ⟨a, rfl, _, _⟩ := hb v hv
    simp [sanitiseDiv, fdiv, FVal.isnan]

/-- Every non-empty row has a NaN-ignoring maximum, and `np.nanmax(_, axis=1)`
collects them. -/
lemma rowMaxes_exists {rows : List (List FVal)} (h : ∀ r ∈ rows, r ≠ []) :
    ∃ ms, rowMaxes rows = some ms ∧
      List.Forall₂ (fun r m => nanmaxList r = some m) rows ms := by
  induction rows with
  | nil => exact ⟨[], rfl, List.Forall₂.nil⟩
  | cons r rs ih =>
      obtain ⟨ms, hms, hf⟩ := ih (fun s hs => h s (List.mem_cons_of_mem r hs))
      have hr : r ≠ [] := h r (by simp)
      obtain ⟨m, hm⟩ := Option.isSome_iff_exists.mp ((nanmaxList_isSome r).mpr hr)
      exact ⟨m :: ms, by simp [rowMaxes, hm, hms], List.Forall₂.cons hm hf⟩

lemma patient_normalise_eq_ok {rows : List (List FVal)} {ms : List FVal}
    (hneg : hasNegative rows = false) (hms : rowMaxes rows = some ms) :
    patient_normalise (.array2d rows) = .ok (normaliseRows rows ms) := by
  simp [patient_normalise, hneg, hms]

lemma normaliseRows_len {rows : List (List FVal)} {ms : List FVal}
    (h : List.Forall₂ (fun r m => nanmaxList r = some m) rows ms) :
    List.Forall₂ (fun r nr => nr.length = r.length) rows (normaliseRows rows ms) := by
  induction h with
  | nil => exact List.Forall₂.nil
  | cons h1 h2 ih => exact List.Forall₂.cons (by simp) ih

lemma normaliseRows_forall_bounds {rows : List (List FVal)} {ms : List FVal}
    (h : List.Forall₂ (fun r m => nanmaxList r = some m) rows ms)
    (hneg : ∀ r ∈ rows, ∀ v ∈ r, FVal.isNeg v = false) :
    ∀ nr ∈ normaliseRows rows ms, ∀ v ∈ nr, ∃ a : ℚ, v = .num a ∧ 0 ≤ a ∧ a ≤ 1 := by
  induction h with
  | nil => simp [normaliseRows]
  | cons h1 h2 ih =>
      rename_i r m rs ms'
      intro nr hnr
      rcases List.mem_cons.mp hnr with rfl | hnr'
      · exact normRow_bounds h1 (hneg r (by simp))
      · exact ih (fun s hs => hneg s (List.mem_cons_of_mem r hs)) nr hnr'

lemma normaliseRows_degenerate {rows : List (List FVal)} {ms : List FVal}
    (h : List.Forall₂ (fun r m => nanmaxList r = some m) rows ms) :
    List.Forall₂ (fun r nr =>
      ((∀ v ∈ r, v = .num 0) ∨ (∀ v ∈ r, v.isnan = true)) → ∀ v ∈ nr, v = .num 0)
      rows (normaliseRows rows ms) := by
  induction h with
  | nil => exact List.Forall₂.nil
  | cons h1 h2 ih => exact List.Forall₂.cons (fun hdeg => normRow_degenerate h1 hdeg) ih

lemma normaliseRows_pos_bounds {rows : List (List FVal)} {ms : List FVal}
    (h : List.Forall₂ (fun r m => nanmaxList r = some m) rows ms)
    (hneg : ∀ r ∈ rows, ∀ v ∈ r, FVal.isNeg v = false) :
    List.Forall₂ (fun m nr => (∃ q : ℚ, m = .num q ∧ 0 < q) →
      ∀ v ∈ nr, ∃ a : ℚ, v = .num a ∧ 0 ≤ a ∧ a ≤ 1) ms (normaliseRows rows ms) := by
  induction h with
  | nil => exact List.Forall₂.nil
  | cons h1 h2 ih =>
      rename_i r m rs ms'
      exact List.Forall₂.cons (fun _ => normRow_bounds h1 (hneg r (by simp)))
        (ih (fun s hs => hneg s (List.mem_cons_of_mem r hs)))

/-- When every row's maximum is a positive finite value, the normalised table
has no negative entries, every row of it has maximum 1, and normalising it
again by those maxima is the identity. -/
lemma normaliseRows_renorm {rows : List (List FVal)} {ms : List FVal}
    (h : List.Forall₂ (fun r m => nanmaxList r = some m) rows ms)
    (hneg : ∀ r ∈ rows, ∀ v ∈ r, FVal.isNeg v = false)
    (hpos : ∀ r ∈ rows, ∃ q : ℚ, 0 < q ∧ nanmaxList r = some (.num q)) :
    hasNegative (normaliseRows rows ms) = false ∧
    rowMaxes (normaliseRows rows ms) = some (rows.map (fun _ => FVal.num 1)) ∧
    normaliseRows (normaliseRows rows ms) (rows.map (fun _ => FVal.num 1)) =
      normaliseRows rows ms := by
  induction h with
  | nil => exact ⟨rfl, rfl, rfl⟩
  | cons h1 h2 ih =>
      rename_i r m rs ms'
      obtain ⟨hneg', hmax', hid'⟩ :=
        ih (fun s hs => hneg s (List.mem_cons_of_mem r hs))
          (fun s hs => hpos s (List.mem_cons_of_mem r hs))
      obtain ⟨q, hq, hqmax⟩ := hpos r (by simp)
      have hmq : m = .num q := by
        rw [h1] at hqmax
        exact Option.some_injective _ hqmax
      subst hmq
      obtain ⟨hr1, hr2, hr3⟩ := normRow_renorm hq hqmax (hneg r (by simp))
      refine ⟨?_, ?_, ?_⟩
      · simp only [normaliseRows, List.zipWith_cons_cons, hasNegative, List.any_cons]
        simp only [normaliseRows, hasNegative] at hneg'
        simp [List.any_eq_false] at hneg' ⊢
        exact ⟨fun v hv => hr2 _ (List.mem_map_of_mem _ hv), hneg'⟩
      · simp only [normaliseRows, List.zipWith_cons_cons, rowMaxes, List.map_cons]
        simp only [normaliseRows] at hmax'
        rw [hr1, hmax']
      · simp only [normaliseRows, List.zipWith_cons_cons, List.map_cons] at *
        rw [hr3, hid']

example :
    patient_normalise (.array2d [[.num 1, .num 2, .num 3], [.num 4, .num 5, .num 6]]) =
      .ok [[.num (1/3), .num (2/3), .num 1], [.num (4/6), .num (5/6), .num 1]] := by
  norm_num [patient_normalise, hasNegative, rowMaxes, nanmaxList, maxNN, fmax2, fle,
    normaliseRows, sanitiseDiv, fdiv, FVal.isnan, FVal.isNeg]

example : patient_normalise (.array2d [[.num 0, .num 0, .num 0]]) = .ok [[.num 0, .num 0, .num 0]] := by
  norm_num [patient_normalise, hasNegative, rowMaxes, nanmaxList, maxNN, fmax2, fle,
    normaliseRows, sanitiseDiv, fdiv, FVal.isnan, FVal.isNeg]

example : patient_normalise (.array2d [[.nan, .nan], [.num 0, .nan]]) =
    .ok [[.num 0, .num 0], [.num 0, .num 0]] := by
  norm_num [patient_normalise, hasNegative, rowMaxes, nanmaxList, maxNN, fmax2, fle,
    normaliseRows, sanitiseDiv, fdiv, FVal.isnan, FVal.isNeg]

/-- C1 (amended: the input must additionally have at least one day-column,
i.e. no empty rows — on a 2-D array with empty rows numpy's `nanmax` raises
instead of returning).  For a 2-D non-negative array with non-empty rows,
`patient_normalise` computes each row's maximum ignoring NaNs (the max of an
all-NaN row being NaN), divides each row by its maximum, replaces the NaNs
arising from the division with 0, and returns a same-shaped result whose
values lie in [0, 1] for rows with a positive finite maximum and are all 0
for all-zero or all-NaN rows. -/
theorem patient_normalise_valid_spec (rows : List (List FVal))
    (hrow : ∀ r ∈ rows, r ≠ [])
    (hneg : ∀ r ∈ rows, ∀ v ∈ r, ¬ NegEntry v) :
    ∃ ms res, rowMaxes rows = some ms ∧
      patient_normalise (.array2d rows) = .ok res ∧
      List.Forall₂ IsNanMax rows ms ∧
      List.Forall₂ (fun r nr => nr.length = r.length) rows res ∧
      List.Forall₂ (fun m nr => (∃ q : ℚ, m = .num q ∧ 0 < q) →
        ∀ v ∈ nr, ∃ a : ℚ, v = .num a ∧ 0 ≤ a ∧ a ≤ 1) ms res ∧
      List.Forall₂ (fun r nr =>
        ((∀ v ∈ r, v = .num 0) ∨ (∀ v ∈ r, v.isnan = true)) →
        ∀ v ∈ nr, v = .num 0) rows res := by
  have hneg' : ∀ r ∈ rows, ∀ v ∈ r, FVal.isNeg v = false := by
    intro r hr v hv
    exact (isNeg_eq_false_iff v).mpr (hneg r hr v hv)
  obtain ⟨ms, hms, hf⟩ := rowMaxes_exists hrow
  refine ⟨ms, normaliseRows rows ms, hms,
    patient_normalise_eq_ok ((hasNegative_eq_false_iff rows).mpr hneg) hms,
    List.Forall₂.imp (fun _ _ h => nanmaxList_spec h) hf,
    normaliseRows_len hf,
    normaliseRows_pos_bounds hf hneg',
    normaliseRows_degenerate hf⟩

/-- Witness for C1 at the concrete table `[[1, 2], [0, NaN], [NaN, NaN]]`. -/
theorem patient_normalise_valid_spec_witness :
    ∃ ms res,
      rowMaxes c1Table = some ms ∧
      patient_normalise (.array2d c1Table) = .ok res ∧
      List.Forall₂ IsNanMax c1Table ms ∧
      List.Forall₂ (fun r nr => nr.length = r.length) c1Table res ∧
      List.Forall₂ (fun m nr => (∃ q : ℚ, m = .num q ∧ 0 < q) →
        ∀ v ∈ nr, ∃ a : ℚ, v = .num a ∧ 0 ≤ a ∧ a ≤ 1) ms res ∧
      List.Forall₂ (fun r nr =>
        ((∀ v ∈ r, v = .num 0) ∨ (∀ v ∈ r, v.isnan = true)) →
        ∀ v ∈ nr, v = .num 0) c1Table res :=
  patient_normalise_valid_spec c1Table (by decide)
    ((hasNegative_eq_false_iff c1Table).mp (by decide))

/-- C1 counterexample: `[[]]` (numpy shape `(1, 0)`) is a 2-dimensional
numeric array with no negative values, yet `patient_normalise` does not
return a same-shaped result on it — `np.nanmax` raises a `ValueError` for the
zero-size per-row reduction. -/
theorem patient_normalise_empty_row_counterexample :
    patient_normalise (.array2d [[]]) =
      .error (.valueError "zero-size array to reduction operation fmax.reduce which has no identity") := rfl

/-- C3: for a 2-dimensional numeric array, `patient_normalise` fails with the
`ValueError` carrying "values should not be negative" (the full code message
is "Inflammation values should not be negative") exactly when the array holds
at least one negative value; negative values are rejected, never clamped. -/
theorem patient_normalise_negative_iff (rows : List (List FVal)) :
    (patient_normalise (.array2d rows) =
      .error (.valueError ("Inflammation " ++ "values should not be negative"))) ↔
    ∃ r ∈ rows, ∃ v ∈ r, NegEntry v := by
  rw [← hasNegative_eq_true_iff]
  constructor
  · intro h
    by_cases hn : hasNegative rows
    · exact hn
    · exfalso
      have hn' : hasNegative rows = false := by simpa using hn
      cases hms : rowMaxes rows with
      | none =>
          have hz : patient_normalise (.array2d rows) = .error (.valueError
              "zero-size array to reduction operation fmax.reduce which has no identity") := by
            simp [patient_normalise, hn', hms]
          rw [hz] at h
          exact absurd h (by decide)
      | some ms =>
          rw [patient_normalise_eq_ok hn' hms] at h
          simp at h
  · intro h
    simp [patient_normalise, h]

/-- Witness for C3: a table with a negative entry is rejected with the
domain error (via `mpr`), and the same table with the negation removed is
not (via `mp`, contrapositive direction exercised at a clean table). -/
theorem patient_normalise_negative_iff_witness :
    patient_normalise (.array2d [[.num (-1), .num 2]]) =
      .error (.valueError ("Inflammation " ++ "values should not be negative")) :=
  (patient_normalise_negative_iff [[.num (-1), .num 2]]).mpr
    ⟨[.num (-1), .num 2], by simp, .num (-1), by simp, Or.inr ⟨-1, rfl, by norm_num⟩⟩

/-- C4: on valid input (2-D, non-negative, with its per-row reduction
non-empty) the division step never raises: rows with maximum 0 or NaN are
handled by the post-hoc NaN replacement, the function returns a same-shaped
array, and the returned array contains no non-finite value (indeed only
finite values in [0, 1]); in particular `[[0,0,0]]` maps to `[[0,0,0]]`. -/
theorem patient_normalise_total_on_valid (rows : List (List FVal))
    (hrow : ∀ r ∈ rows, r ≠ [])
    (hneg : ∀ r ∈ rows, ∀ v ∈ r, ¬ NegEntry v) :
    (∃ res, patient_normalise (.array2d rows) = .ok res ∧
      List.Forall₂ (fun r nr => nr.length = r.length) rows res ∧
      ∀ nr ∈ res, ∀ v ∈ nr, ∃ a : ℚ, v = .num a ∧ 0 ≤ a ∧ a ≤ 1) ∧
    patient_normalise (.array2d [[.num 0, .num 0, .num 0]]) = .ok [[.num 0, .num 0, .num 0]] := by
  constructor
  · have hneg' : ∀ r ∈ rows, ∀ v ∈ r, FVal.isNeg v = false := by
      intro r hr v hv
      exact (isNeg_eq_false_iff v).mpr (hneg r hr v hv)
    obtain ⟨ms, hms, hf⟩ := rowMaxes_exists hrow
    exact ⟨normaliseRows rows ms,
      patient_normalise_eq_ok ((hasNegative_eq_false_iff rows).mpr hneg) hms,
      normaliseRows_len hf,
      normaliseRows_forall_bounds hf hneg'⟩
  · norm_num [patient_normalise, hasNegative, rowMaxes, nanmaxList, maxNN, fmax2, fle,
      normaliseRows, sanitiseDiv, fdiv, FVal.isnan, FVal.isNeg]

/-- Witness for C4 at `[[0, 0], [NaN, NaN], [2, 1]]`: a zero-max row, an
all-NaN-max row and an ordinary row. -/
theorem patient_normalise_total_on_valid_witness :
    (∃ res, patient_normalise (.array2d c4Table) = .ok res ∧
      List.Forall₂ (fun r nr => nr.length = r.length) c4Table res ∧
      ∀ nr ∈ res, ∀ v ∈ nr, ∃ a : ℚ, v = .num a ∧ 0 ≤ a ∧ a ≤ 1) ∧
    patient_normalise (.array2d [[.num 0, .num 0, .num 0]]) = .ok [[.num 0, .num 0, .num 0]] :=
  patient_normalise_total_on_valid c4Table (by decide)
    ((hasNegative_eq_false_iff c4Table).mp (by decide))

/-- C5: the validation order of `patient_normalise` — a non-ndarray argument
fails with the `TypeError` before any shape or domain check, and an ndarray
that is not exactly 2-dimensional (0-D, 1-D or 3-D, whatever its contents,
negative values included) fails with the dimensionality `ValueError` before
the negativity check. -/
theorem patient_normalise_check_order :
    patient_normalise .notArray = .error (.typeError "Input data should be an ndarray") ∧
    (∀ v, patient_normalise (.array0d v) =
      .error (.valueError "Inflammation array should be 2-dimensional")) ∧
    (∀ xs, patient_normalise (.array1d xs) =
      .error (.valueError "Inflammation array should be 2-dimensional")) ∧
    (∀ xsss, patient_normalise (.array3d xsss) =
      .error (.valueError "Inflammation array should be 2-dimensional")) :=
  ⟨rfl, fun _ => rfl, fun _ => rfl, fun _ => rfl⟩

/-- Witness for C5: a 1-D array containing a negative value still reports the
shape error, not the domain error. -/
theorem patient_normalise_check_order_witness :
    patient_normalise (.array1d [.num (-1), .num 2]) =
      .error (.valueError "Inflammation array should be 2-dimensional") :=
  patient_normalise_check_order.2.2.1 [.num (-1), .num 2]

/-- C6: for a 2-D non-negative table in which every row's maximum is a
positive finite value, `patient_normalise` applied to its own output returns
that output unchanged (after one pass every row's maximum is exactly 1). -/
theorem patient_normalise_idempotent_nondegenerate (rows : List (List FVal))
    (hneg : ∀ r ∈ rows, ∀ v ∈ r, ¬ NegEntry v)
    (hpos : ∀ r ∈ rows, ∃ q : ℚ, 0 < q ∧ nanmaxList r = some (.num q)) :
    ∃ res, patient_normalise (.array2d rows) = .ok res ∧
      patient_normalise (.array2d res) = .ok res := by
  have hneg' : ∀ r ∈ rows, ∀ v ∈ r, FVal.isNeg v = false := by
    intro r hr v hv
    exact (isNeg_eq_false_iff v).mpr (hneg r hr v hv)
  have hrow : ∀ r ∈ rows, r ≠ [] := by
    intro r hr hemp
    obtain ⟨q, _, hm⟩ := hpos r hr
    rw [hemp] at hm
    simp [nanmaxList] at hm
  obtain ⟨ms, hms, hf⟩ := rowMaxes_exists hrow
  obtain ⟨hneg2, hmax2, hid2⟩ := normaliseRows_renorm hf hneg' hpos
  refine ⟨normaliseRows rows ms,
    patient_normalise_eq_ok ((hasNegative_eq_false_iff rows).mpr hneg) hms, ?_⟩
  rw [patient_normalise_eq_ok hneg2 hmax2, hid2]

/-- Witness for C6 at `[[1, 2], [3, NaN]]` (row maxima 2 and 3). -/
theorem patient_normalise_idempotent_nondegenerate_witness :
    ∃ res, patient_normalise (.array2d c6Table) = .ok res ∧
      patient_normalise (.array2d res) = .ok res :=
  patient_normalise_idempotent_nondegenerate c6Table
    ((hasNegative_eq_false_iff c6Table).mp (by decide))
    (by
      intro r hr
      simp [c6Table] at hr
      rcases hr with rfl | rfl
      · exact ⟨2, by norm_num, by decide⟩
      · exact ⟨3, by norm_num, by decide⟩)

lemma colFold_cons₂ (f : ℚ → ℚ → ℚ) (r r2 : List ℚ) (rs : List (List ℚ)) :
    colFold f (r :: r2 :: rs) = List.zipWith f r (colFold f (r2 :: rs)) := rfl

lemma colFold_length {f : ℚ → ℚ → ℚ} {M : List (List ℚ)} {c : ℕ}
    (h : ∀ r ∈ M, r.length = c) (hM : M ≠ []) : (colFold f M).length = c := by
  induction M with
  | nil => exact absurd rfl hM
  | cons r rs ih =>
      cases rs with
      | nil => simpa [colFold] using h r (by simp)
      | cons r2 rs2 =>
          have hrest := ih (fun s hs => h s (List.mem_cons_of_mem r hs)) (by simp)
          rw [colFold_cons₂, List.length_zipWith, hrest, h r (by simp), min_self]

lemma colSums_getD {M : List (List ℚ)} {c : ℕ} (h : ∀ r ∈ M, r.length = c)
    (j : ℕ) (hj : j < c) :
    (colSums M).getD j 0 = (M.map (fun r => r.getD j 0)).sum := by
  induction M with
  | nil => simp [colSums, colFold]
  | cons r rs ih =>
      cases rs with
      | nil => simp [colSums, colFold]
      | cons r2 rs2 =>
          have hr : r.length = c := h r (by simp)
          have hrest : (colSums (r2 :: rs2)).length = c :=
            colFold_length (fun s hs => h s (List.mem_cons_of_mem r hs)) (by simp)
          have hzip : j < (List.zipWith (· + ·) r (colSums (r2 :: rs2))).length := by
            rw [List.length_zipWith, hr, hrest, min_self]
            exact hj
          rw [show colSums (r :: r2 :: rs2) = List.zipWith (· + ·) r (colSums (r2 :: rs2)) from rfl]
          rw [List.getD_eq_getElem _ _ hzip, List.getElem_zipWith]
          rw [List.map_cons, List.sum_cons,
            ← ih (fun s hs => h s (List.mem_cons_of_mem r hs))]
          rw [List.getD_eq_getElem r 0 (by rw [hr]; exact hj),
            List.getD_eq_getElem _ 0 (by rw [hrest]; exact hj)]

lemma colFold_replicate_zero (f : ℚ → ℚ → ℚ) (hf : f 0 0 = 0) (n c : ℕ) (hn : 1 ≤ n) :
    colFold f (List.replicate n (List.replicate c (0 : ℚ))) = List.replicate c 0 := by
  induction n with
  | zero => exact absurd hn (by norm_num)
  | succ k ih =>
      cases k with
      | zero => simp [colFold]
      | succ k2 =>
          have h1 : List.replicate (k2 + 1 + 1) (List.replicate c (0:ℚ)) =
              List.replicate c (0:ℚ) :: List.replicate (k2 + 1) (List.replicate c (0:ℚ)) :=
            List.replicate_succ ..
          have h2 : List.replicate (k2 + 1) (List.replicate c (0:ℚ)) =
              List.replicate c (0:ℚ) :: List.replicate k2 (List.replicate c (0:ℚ)) :=
            List.replicate_succ ..
          rw [h1, h2, colFold_cons₂, ← h2, ih (by omega),
            List.zipWith_replicate, min_self, hf]

lemma daily_mean_length {t : QTable} {c : ℕ} (h : ∀ r ∈ t, r.length = c)
    (ht : t ≠ []) : (daily_mean t).length = c := by
  simp [daily_mean, colSums, colFold_length h ht]

lemma daily_mean_spec {t : QTable} {c : ℕ} (h : ∀ r ∈ t, r.length = c) (ht : t ≠ [])
    (j : ℕ) (hj : j < c) : (daily_mean t).getD j 0 = specDailyMean t j := by
  have hcs : (colSums t).length = c := colFold_length h ht
  have hjc : j < (colSums t).length := by rw [hcs]; exact hj
  rw [daily_mean, specDailyMean,
    List.getD_eq_getElem _ 0 (by simpa using hjc), List.getElem_map,
    ← List.getD_eq_getElem _ 0 hjc, colSums_getD h j hj]

lemma colVariances_length {m : List (List ℚ)} {c : ℕ} (h : ∀ r ∈ m, r.length = c)
    (hm : m ≠ []) : (colVariances m).length = c := by
  have hmuslen : ((colSums m).map (fun s => s / (m.length : ℚ))).length = c := by
    simp [colSums, colFold_length h hm]
  have hdev : ∀ r' ∈ m.map (fun row =>
      List.zipWith (fun x mu => (x - mu) ^ 2) row
        ((colSums m).map (fun s => s / (m.length : ℚ)))), r'.length = c := by
    intro r' hr'
    rw [List.mem_map] at hr'
    obtain ⟨row, hrow, rfl⟩ := hr'
    rw [List.length_zipWith, hmuslen, h row hrow, min_self]
  have hm2 : m.map (fun row =>
      List.zipWith (fun x mu => (x - mu) ^ 2) row
        ((colSums m).map (fun s => s / (m.length : ℚ)))) ≠ [] := by
    simpa using hm
  have hL : colVariances m = (colSums (m.map (fun row =>
      List.zipWith (fun x mu => (x - mu) ^ 2) row
        ((colSums m).map (fun s => s / (m.length : ℚ)))))).map
      (fun s => s / (m.length : ℚ)) := rfl
  rw [hL, List.length_map]
  exact colFold_length hdev hm2

lemma colVariances_getD {m : List (List ℚ)} {c : ℕ} (h : ∀ r ∈ m, r.length = c)
    (hm : m ≠ []) (j : ℕ) (hj : j < c) :
    (colVariances m).getD j 0 = specPopVariance (m.map (fun r => r.getD j 0)) := by
  have hcslen : (colSums m).length = c := colFold_length h hm
  have hmuslen : ((colSums m).map (fun s => s / (m.length : ℚ))).length = c := by
    simp [hcslen]
  have hdev : ∀ r' ∈ m.map (fun row =>
      List.zipWith (fun x mu => (x - mu) ^ 2) row
        ((colSums m).map (fun s => s / (m.length : ℚ)))), r'.length = c := by
    intro r' hr'
    rw [List.mem_map] at hr'
    obtain ⟨row, hrow, rfl⟩ := hr'
    rw [List.length_zipWith, hmuslen, h row hrow, min_self]
  have hm2 : m.map (fun row =>
      List.zipWith (fun x mu => (x - mu) ^ 2) row
        ((colSums m).map (fun s => s / (m.length : ℚ)))) ≠ [] := by
    simpa using hm
  have hL : colVariances m = (colSums (m.map (fun row =>
      List.zipWith (fun x mu => (x - mu) ^ 2) row
        ((colSums m).map (fun s => s / (m.length : ℚ)))))).map
      (fun s => s / (m.length : ℚ)) := rfl
  have hmusj : ((colSums m).map (fun s => s / (m.length : ℚ))).getD j 0 =
      (m.map (fun r => r.getD j 0)).sum / (m.length : ℚ) := by
    rw [List.getD_eq_getElem _ 0 (by rw [hmuslen]; exact hj), List.getElem_map,
      ← List.getD_eq_getElem _ 0 (by rw [hcslen]; exact hj), colSums_getD h j hj]
  have hfoldlen : j < (colSums (m.map (fun row =>
      List.zipWith (fun x mu => (x - mu) ^ 2) row
        ((colSums m).map (fun s => s / (m.length : ℚ)))))).length := by
    rw [show colSums (m.map (fun row =>
        List.zipWith (fun x mu => (x - mu) ^ 2) row
          ((colSums m).map (fun s => s / (m.length : ℚ))))) =
      colFold (· + ·) (m.map (fun row =>
        List.zipWith (fun x mu => (x - mu) ^ 2) row
          ((colSums m).map (fun s => s / (m.length : ℚ))))) from rfl,
      colFold_length hdev hm2]
    exact hj
  rw [hL, List.getD_eq_getElem _ 0 (by simpa using hfoldlen), List.getElem_map,
    ← List.getD_eq_getElem _ 0 hfoldlen, colSums_getD hdev j hj, List.map_map]
  have hrows : ∀ row ∈ m,
      ((fun r => r.getD j 0) ∘ (fun row => List.zipWith (fun x mu => (x - mu) ^ 2) row
        ((colSums m).map (fun s => s / (m.length : ℚ))))) row =
      (row.getD j 0 - (m.map (fun r => r.getD j 0)).sum / (m.length : ℚ)) ^ 2 := by
    intro row hrow
    have hzlen : j < (List.zipWith (fun x mu => (x - mu) ^ 2) row
        ((colSums m).map (fun s => s / (m.length : ℚ)))).length := by
      rw [List.length_zipWith, hmuslen, h row hrow, min_self]
      exact hj
    simp only [Function.comp]
    rw [List.getD_eq_getElem _ 0 hzlen, List.getElem_zipWith,
      ← List.getD_eq_getElem row 0 (by rw [h row hrow]; exact hj),
      ← List.getD_eq_getElem _ 0 (by rw [hmuslen]; exact hj), hmusj]
  rw [List.map_congr_left hrows, specPopVariance, List.map_map, List.length_map]
  rfl

lemma stdByDay_eq (M : List (List ℚ)) :
    stdByDay M = (colVariances M).map (fun q : ℚ => Real.sqrt (q : ℝ)) := rfl

lemma stdByDay_length {M : List (List ℚ)} {c : ℕ} (h : ∀ r ∈ M, r.length = c)
    (hM : M ≠ []) : (stdByDay M).length = c := by
  rw [stdByDay_eq, List.length_map, colVariances_length h hM]

lemma stdByDay_getD {M : List (List ℚ)} {c : ℕ} (h : ∀ r ∈ M, r.length = c)
    (hM : M ≠ []) (j : ℕ) (hj : j < c) :
    (stdByDay M).getD j 0 =
      Real.sqrt ((specPopVariance (M.map (fun r => r.getD j 0)) : ℚ) : ℝ) := by
  have hv : (colVariances M).length = c := colVariances_length h hM
  have hb : j < ((colVariances M).map (fun q : ℚ => Real.sqrt (q : ℝ))).length := by
    rw [List.length_map, hv]
    exact hj
  rw [stdByDay_eq, List.getD_eq_getElem _ 0 hb, List.getElem_map,
    ← List.getD_eq_getElem _ 0 (by rw [hv]; exact hj), colVariances_getD h hM j hj]

lemma compute_std_ok {data : List QTable} {c : ℕ} (hne : data ≠ [])
    (h : ∀ t ∈ data, t ≠ [] ∧ ∀ r ∈ t, r.length = c) :
    compute_standard_deviation_by_day data = .ok (stdByDay (data.map daily_mean)) := by
  have hmlen : ∀ mrow ∈ data.map daily_mean, mrow.length = c := by
    intro mrow hm
    rw [List.mem_map] at hm
    obtain ⟨t, ht, rfl⟩ := hm
    exact daily_mean_length (h t ht).2 (h t ht).1
  cases hmeans : data.map daily_mean with
  | nil => rw [List.map_eq_nil_iff] at hmeans; exact absurd hmeans hne
  | cons m rest =>
      have hall : rest.all (fun r => r.length == m.length) = true := by
        rw [List.all_eq_true]
        intro r hr
        have h1 : r.length = c := hmlen r (by rw [hmeans]; exact List.mem_cons_of_mem m hr)
        have h2 : m.length = c := hmlen m (by rw [hmeans]; simp)
        simp [h1, h2]
      simp only [compute_standard_deviation_by_day, hmeans, hall, if_true]

lemma stdByDay_single {m : List ℚ} {c : ℕ} (hm : m.length = c) :
    stdByDay [m] = List.replicate c (0 : ℝ) := by
  have hmus : (colSums [m]).map (fun s => s / (([m] : List (List ℚ)).length : ℚ)) = m := by
    show m.map (fun s => s / ((1 : ℕ) : ℚ)) = m
    simp
  have hL : colVariances [m] = (colSums (([m] : List (List ℚ)).map (fun row =>
      List.zipWith (fun x mu => (x - mu) ^ 2) row
        ((colSums [m]).map (fun s => s / (([m] : List (List ℚ)).length : ℚ)))))).map
      (fun s => s / (([m] : List (List ℚ)).length : ℚ)) := rfl
  have hdev : m.map (fun x => (x - x) ^ 2) = List.replicate c (0 : ℚ) := by
    refine List.eq_replicate_iff.mpr ⟨by simp [hm], ?_⟩
    intro b hb
    rw [List.mem_map] at hb
    obtain ⟨x, _, rfl⟩ := hb
    simp
  have hvar : colVariances [m] = List.replicate c 0 := by
    rw [hL, hmus, List.map_singleton, List.zipWith_same, hdev]
    show (List.replicate c (0:ℚ)).map (fun s => s / ((1 : ℕ) : ℚ)) = List.replicate c 0
    simp
  rw [stdByDay_eq, hvar, List.map_replicate]
  norm_num

/-- C2: for a data source returning a non-empty collection of (non-empty)
tables with the same number of day-columns, `analyse_data` computes, per day,
the population standard deviation (divide by N) of the per-dataset daily
means; and on the spec's mock source with datasets `[[1,2,3]]` and
`[[4,5,6]]` it returns `[1.5, 1.5, 1.5]`. -/
theorem analyse_data_spec (ds : DataSource) (data : List QTable) (c : ℕ)
    (hload : ds.load_inflammation_data = .ok data)
    (hne : data ≠ [])
    (h : ∀ t ∈ data, t ≠ [] ∧ ∀ r ∈ t, r.length = c) :
    (∃ res, analyse_data ds = .ok res ∧ res.length = c ∧
      ∀ j, j < c → res.getD j 0 =
        Real.sqrt ((specPopVariance (data.map (fun t => specDailyMean t j)) : ℚ) : ℝ)) ∧
    analyse_data mockDataSource = .ok [(3/2 : ℝ), 3/2, 3/2] := by
  constructor
  · have hms : ∀ mrow ∈ data.map daily_mean, mrow.length = c := by
      intro mrow hm
      rw [List.mem_map] at hm
      obtain ⟨t, ht, rfl⟩ := hm
      exact daily_mean_length (h t ht).2 (h t ht).1
    have hmne : data.map daily_mean ≠ [] := by simpa using hne
    have hrun : analyse_data ds = compute_standard_deviation_by_day data := by
      simp only [analyse_data, hload]
    refine ⟨stdByDay (data.map daily_mean), by rw [hrun, compute_std_ok hne h],
      stdByDay_length hms hmne, ?_⟩
    intro j hj
    rw [stdByDay_getD hms hmne j hj, List.map_map]
    have hmm : List.map ((fun r => r.getD j 0) ∘ daily_mean) data =
        List.map (fun t => specDailyMean t j) data :=
      List.map_congr_left (fun t ht => daily_mean_spec (h t ht).2 (h t ht).1 j hj)
    rw [hmm]
  · have h32 : Real.sqrt ((9 : ℝ) / 4) = 3 / 2 := by
      rw [show (9 : ℝ) / 4 = (3 / 2 : ℝ) ^ 2 by norm_num,
        Real.sqrt_sq (by norm_num : (0 : ℝ) ≤ 3 / 2)]
    have hmeans : ([[[1,2,3]],[[4,5,6]]] : List QTable).map daily_mean =
        [[1,2,3],[4,5,6]] := by
      norm_num [daily_mean, colSums, colFold]
    have hvar : colVariances [[1,2,3],[4,5,6]] = [9/4, 9/4, 9/4] := by
      norm_num [colVariances, colSums, colFold]
    have hstd : stdByDay [[1,2,3],[4,5,6]] = [3/2, 3/2, 3/2] := by
      rw [stdByDay_eq, hvar]
      norm_num [h32]
    have hrun : analyse_data mockDataSource =
        compute_standard_deviation_by_day [[[1,2,3]],[[4,5,6]]] := rfl
    have hok := @compute_std_ok [[[1,2,3]],[[4,5,6]]] 3
      (by simp)
      (by
        intro t ht
        simp at ht
        rcases ht with rfl | rfl <;>
          exact ⟨by simp, by intro r hr; simp at hr; subst hr; rfl⟩)
    rw [hrun, hok, hmeans, hstd]

/-- Witness for C2 at the mock data source (datasets `[[1,2,3]]` and
`[[4,5,6]]`, 3 day-columns). -/
theorem analyse_data_spec_witness :
    (∃ res, analyse_data mockDataSource = .ok res ∧ res.length = 3 ∧
      ∀ j, j < 3 → res.getD j 0 =
        Real.sqrt ((specPopVariance ((([[[1,2,3]],[[4,5,6]]] : List QTable)).map
          (fun t => specDailyMean t j)) : ℚ) : ℝ)) ∧
    analyse_data mockDataSource = .ok [(3/2 : ℝ), 3/2, 3/2] :=
  analyse_data_spec mockDataSource [[[1,2,3]],[[4,5,6]]] 3 rfl (by simp)
    (by
      intro t ht
      simp at ht
      rcases ht with rfl | rfl <;>
        exact ⟨by simp, by intro r hr; simp at hr; subst hr; rfl⟩)

/-- C7: a CSV data source whose glob finds zero matching files fails with the
"no files found" `ValueError`, and `analyse_data` propagates exactly that
error to its caller: no result, no retry, no rewrapping. -/
theorem analyse_data_propagates_no_files (s : CSVDataSource)
    (h : s.matched_files = []) :
    s.toDataSource.load_inflammation_data =
      .error (.valueError ("No inflammation data CSV files found in path " ++ s.dir_path)) ∧
    analyse_data s.toDataSource =
      .error (.valueError ("No inflammation data CSV files found in path " ++ s.dir_path)) := by
  have h1 : s.toDataSource.load_inflammation_data =
      .error (.valueError ("No inflammation data CSV files found in path " ++ s.dir_path)) := by
    show s.load_inflammation_data = _
    simp [CSVDataSource.load_inflammation_data, h]
  exact ⟨h1, by simp only [analyse_data, h1]⟩

/-- Witness for C7 at a concrete empty CSV source. -/
theorem analyse_data_propagates_no_files_witness :
    emptyCSVSource.toDataSource.load_inflammation_data =
      .error (.valueError ("No inflammation data CSV files found in path " ++ emptyCSVSource.dir_path)) ∧
    analyse_data emptyCSVSource.toDataSource =
      .error (.valueError ("No inflammation data CSV files found in path " ++ emptyCSVSource.dir_path)) :=
  analyse_data_propagates_no_files emptyCSVSource rfl

/-- C8: `daily_mean` of `[[1,2],[3,4],[5,6]]` is `[3,4]`, and on any all-zero
table (at least one patient) `daily_mean`, `daily_max` and `daily_min` each
return the all-zero series of length the column count. -/
theorem daily_stats_basic :
    daily_mean [[1,2],[3,4],[5,6]] = [3,4] ∧
    ∀ n c : ℕ, 1 ≤ n →
      daily_mean (List.replicate n (List.replicate c (0:ℚ))) = List.replicate c 0 ∧
      daily_max (List.replicate n (List.replicate c (0:ℚ))) = List.replicate c 0 ∧
      daily_min (List.replicate n (List.replicate c (0:ℚ))) = List.replicate c 0 := by
  refine ⟨by norm_num [daily_mean, colSums, colFold], ?_⟩
  intro n c hn
  have hsum := colFold_replicate_zero (· + ·) (by norm_num) n c hn
  have hmax := colFold_replicate_zero max (by simp) n c hn
  have hmin := colFold_replicate_zero min (by simp) n c hn
  refine ⟨?_, hmax, hmin⟩
  rw [daily_mean, show colSums (List.replicate n (List.replicate c (0:ℚ))) =
    colFold (· + ·) (List.replicate n (List.replicate c (0:ℚ))) from rfl, hsum,
    List.map_replicate]
  norm_num

/-- Witness for C8 at a 3-patient, 2-day all-zero table. -/
theorem daily_stats_basic_witness :
    daily_mean (List.replicate 3 (List.replicate 2 (0:ℚ))) = List.replicate 2 0 ∧
    daily_max (List.replicate 3 (List.replicate 2 (0:ℚ))) = List.replicate 2 0 ∧
    daily_min (List.replicate 3 (List.replicate 2 (0:ℚ))) = List.replicate 2 0 :=
  daily_stats_basic.2 3 2 (by norm_num)

/-- C10: when the loaded collection holds exactly one table, `analyse_data`
returns the all-zero series of length equal to that table's day-column count
(the population standard deviation of a single stacked row is zero). -/
theorem analyse_data_single_dataset (ds : DataSource) (t : QTable) (c : ℕ)
    (hload : ds.load_inflammation_data = .ok [t])
    (ht : t ≠ []) (h : ∀ r ∈ t, r.length = c) :
    analyse_data ds = .ok (List.replicate c (0 : ℝ)) := by
  have hrun : analyse_data ds = compute_standard_deviation_by_day [t] := by
    simp only [analyse_data, hload]
  have hcs := @compute_std_ok [t] c (by simp)
    (by intro t' ht'; simp at ht'; subst ht'; exact ⟨ht, h⟩)
  rw [hrun, hcs]
  show Except.ok (stdByDay [daily_mean t]) = _
  rw [stdByDay_single (daily_mean_length h ht)]

/-- Witness for C10 at a source holding the single table
`[[1,2,3],[7,9,11]]`. -/
theorem analyse_data_single_dataset_witness :
    analyse_data singleDataSource = .ok (List.replicate 3 (0 : ℝ)) :=
  analyse_data_single_dataset singleDataSource [[1,2,3],[7,9,11]] 3 rfl (by simp)
    (by intro r hr; simp at hr; rcases hr with rfl | rfl <;> rfl)
